import Mathlib

set_option maxRecDepth 8000

/-!
Verification of the grantai backend (src/backend/main.py) against its
natural-language specification.

The development shallowly embeds the Python code:

* `DocumentStore._create_chunks` (lines 75-84): the `while` loop is embedded
  as the fuel-indexed recursion `chunksFromFuel`; `createChunks` runs it with
  fuel `text.length`, which is enough iterations whenever
  `chunkOverlap < chunkSize` (each iteration advances `start` by
  `chunkSize - chunkOverlap ≥ 1`).  The degenerate parameter regime
  `chunkOverlap ≥ chunkSize`, where the Python loop never terminates, is
  analysed separately through `chunkStart` / `CreateChunksTerminates`, which
  track the loop variable `start` over the integers exactly as the source
  computes it (`start = 0`, then `start = start + chunk_size - chunk_overlap`
  at the end of each iteration, loop guard `start < len(text)`).
* `DocumentStore` state and its methods are embedded as state-passing
  functions: each method takes the pre-state and returns its result together
  with the post-state.  The external embedding provider (OpenAI client) is an
  oracle parameter `embed : List Char → Option (List ℚ)`; `none` models a
  raised exception in `_generate_embedding`.
* Similarity scores are real-valued (`cosineSim`), mirroring
  `sklearn.metrics.pairwise.cosine_similarity`; the Python
  `similarities.sort(reverse=True)` on `(similarity, content)` tuples is
  embedded as the insertion sort `sortDesc` over the lexicographic order
  `pairLe` on pairs.
* The `/api/upload` handler (lines 165-215) is embedded as `uploadFiles`;
  text extraction results are part of the request model (`UploadFileReq`),
  since extraction is an external boundary.  Note that in the source the
  `HTTPException(400)` raised for a disallowed extension is raised inside the
  `try:` block whose blanket `except Exception` re-raises everything as
  `HTTPException(500)` (FastAPI's `HTTPException` subclasses `Exception`), so
  the embedded handler maps every in-loop failure to status 500.
-/

/-- Fuel-indexed embedding of the `while start < len(text)` loop of
`DocumentStore._create_chunks`: at state `start`, the loop emits the slice
`text[start : start + chunk_size]` and sets `start = start + chunk_size -
chunk_overlap`.  The fuel only bounds the number of iterations; it is chosen
large enough by `createChunks` whenever `chunkOverlap < chunkSize`. -/
def chunksFromFuel (chunkSize chunkOverlap : Nat) (text : List Char) : Nat → Nat → List (List Char)
  | _, 0 => []
  | start, fuel + 1 =>
    if start < text.length then
      ((text.drop start).take chunkSize)
        :: chunksFromFuel chunkSize chunkOverlap text (start + (chunkSize - chunkOverlap)) fuel
    else []

/-- Embedding of `DocumentStore._create_chunks` (src/backend/main.py lines
75-84): run the chunking loop from `start = 0`.  Fuel `text.length` suffices
for every valid parameter pair (`chunkOverlap < chunkSize`). -/
def createChunks (chunkSize chunkOverlap : Nat) (text : List Char) : List (List Char) :=
  chunksFromFuel chunkSize chunkOverlap text 0 text.length

/-- The value of the loop variable `start` of `_create_chunks` before
iteration `k`, computed over ℤ exactly as the Python source does
(`start = 0`; after each iteration `start = start + chunk_size -
chunk_overlap`); Python integers never overflow or truncate. -/
def chunkStart (chunkSize chunkOverlap : Int) : Nat → Int
  | 0 => 0
  | k + 1 => chunkStart chunkSize chunkOverlap k + chunkSize - chunkOverlap

/-- The `while start < len(text)` loop of `_create_chunks` terminates on a
text of length `textLen` iff some iterate of the loop variable `start`
falsifies the guard. -/
def CreateChunksTerminates (chunkSize chunkOverlap : Int) (textLen : Nat) : Prop :=
  ∃ k, ¬ chunkStart chunkSize chunkOverlap k < (textLen : Int)

/-- Reassembly of a chunk list: the first chunk, followed by every later
chunk with its first `chunkOverlap` characters removed. -/
def reassemble (chunkOverlap : Nat) : List (List Char) → List Char
  | [] => []
  | first :: rest => first ++ (rest.map (fun c => c.drop chunkOverlap)).flatten

/-! ### Basic facts about the chunking loop -/

/-- Once the loop guard fails, no chunk is emitted, whatever the fuel. -/
theorem chunksFromFuel_of_ge (chunkSize chunkOverlap : Nat) (text : List Char)
    (start : Nat) (hs : text.length ≤ start) :
    ∀ fuel, chunksFromFuel chunkSize chunkOverlap text start fuel = [] := by
  intro fuel
  cases fuel with
  | zero => rfl
  | succ fuel => simp [chunksFromFuel, Nat.not_lt.mpr hs]

/-- While the guard holds and fuel remains, the loop emits one chunk and
advances `start` by `chunkSize - chunkOverlap`. -/
theorem chunksFromFuel_of_lt (chunkSize chunkOverlap : Nat) (text : List Char)
    (start fuel : Nat) (hs : start < text.length) (hf : 0 < fuel) :
    chunksFromFuel chunkSize chunkOverlap text start fuel =
      ((text.drop start).take chunkSize)
        :: chunksFromFuel chunkSize chunkOverlap text (start + (chunkSize - chunkOverlap)) (fuel - 1) := by
  cases fuel with
  | zero => exact absurd hf (by simp)
  | succ fuel => simp [chunksFromFuel, hs]

/-- Fuel-indifference: with a valid step, any two sufficient fuels produce
the same chunk list, so `createChunks` computes the unique result of the
source's fuel-free loop. -/
theorem chunksFromFuel_congr (chunkSize chunkOverlap : Nat)
    (hlt : chunkOverlap < chunkSize) (text : List Char) :
    ∀ fuel₁ fuel₂ start, text.length ≤ start + fuel₁ → text.length ≤ start + fuel₂ →
      chunksFromFuel chunkSize chunkOverlap text start fuel₁ =
        chunksFromFuel chunkSize chunkOverlap text start fuel₂ := by
  intro fuel₁
  induction fuel₁ with
  | zero =>
    intro fuel₂ start h₁ h₂
    rw [chunksFromFuel_of_ge _ _ _ _ (by omega), chunksFromFuel_of_ge _ _ _ _ (by omega)]
  | succ fuel ih =>
    intro fuel₂ start h₁ h₂
    by_cases hs : start < text.length
    · rw [chunksFromFuel_of_lt _ _ _ _ _ hs (by omega),
        chunksFromFuel_of_lt _ _ _ _ _ hs (by omega)]
      have hstep : 0 < chunkSize - chunkOverlap := by omega
      refine congrArg _ (ih _ _ (by omega) (by omega))
    · rw [chunksFromFuel_of_ge _ _ _ _ (by omega), chunksFromFuel_of_ge _ _ _ _ (by omega)]

/-- Chunk shape of a 2500-character text at the default parameters 1000/200:
the loop visits `start = 0, 800, 1600, 2400` and then stops at `3200`. -/
theorem createChunks_of_length_2500 (text : List Char) (h : text.length = 2500) :
    createChunks 1000 200 text =
      [text.take 1000, (text.drop 800).take 1000,
        (text.drop 1600).take 1000, (text.drop 2400).take 1000] := by
  unfold createChunks
  rw [chunksFromFuel_of_lt _ _ _ _ _ (by omega) (by omega)]
  rw [chunksFromFuel_of_lt _ _ _ _ _ (by omega) (by omega)]
  rw [chunksFromFuel_of_lt _ _ _ _ _ (by omega) (by omega)]
  rw [chunksFromFuel_of_lt _ _ _ _ _ (by omega) (by omega)]
  rw [chunksFromFuel_of_ge _ _ _ _ (by omega)]
  norm_num

/-- A text strictly between step size and chunk size (here: 900 characters at
parameters 1000/200) yields two chunks: the loop re-enters at `start = 800`. -/
theorem createChunks_of_length_900 (text : List Char) (h : text.length = 900) :
    createChunks 1000 200 text = [text, (text.drop 800).take 1000] := by
  unfold createChunks
  rw [chunksFromFuel_of_lt _ _ _ _ _ (by omega) (by omega)]
  rw [chunksFromFuel_of_lt _ _ _ _ _ (by omega) (by omega)]
  rw [chunksFromFuel_of_ge _ _ _ _ (by omega)]
  simp [List.take_of_length_le, h]

/-- A non-empty text no longer than the step size yields a single chunk
equal to the whole text. -/
theorem createChunks_single (chunkSize chunkOverlap : Nat)
    (hlt : chunkOverlap < chunkSize) (text : List Char) (hne : text ≠ [])
    (hlen : text.length ≤ chunkSize - chunkOverlap) :
    createChunks chunkSize chunkOverlap text = [text] := by
  have hpos : 0 < text.length := List.length_pos.mpr hne
  unfold createChunks
  rw [chunksFromFuel_of_lt _ _ _ _ _ (by omega) (by omega)]
  rw [chunksFromFuel_of_ge _ _ _ _ (by omega)]
  rw [List.drop_zero, List.take_of_length_le (by omega)]

/-- Tail reconstruction: dropping the first `chunkOverlap` characters of every
chunk emitted from position `start` and concatenating yields exactly
`text.drop (start + chunkOverlap)`. -/
theorem flatten_drop_chunksFromFuel (chunkSize chunkOverlap : Nat)
    (hlt : chunkOverlap < chunkSize) (text : List Char) :
    ∀ fuel start, text.length ≤ start + fuel →
      ((chunksFromFuel chunkSize chunkOverlap text start fuel).map
          (fun c => c.drop chunkOverlap)).flatten =
        text.drop (start + chunkOverlap) := by
  intro fuel
  induction fuel with
  | zero =>
    intro start hf
    rw [chunksFromFuel_of_ge _ _ _ _ (by omega)]
    rw [List.drop_eq_nil_of_le (by omega)]
    rfl
  | succ fuel ih =>
    intro start hf
    by_cases hs : start < text.length
    · rw [chunksFromFuel_of_lt _ _ _ _ _ hs (by omega)]
      rw [List.map_cons, List.flatten_cons, Nat.succ_sub_one]
      rw [ih (start + (chunkSize - chunkOverlap)) (by omega)]
      rw [List.drop_take, List.drop_drop]
      have h₁ : start + (chunkSize - chunkOverlap) + chunkOverlap = start + chunkSize := by
        omega
      have h₂ : start + chunkOverlap + (chunkSize - chunkOverlap) = start + chunkSize := by
        omega
      rw [h₁]
      calc (text.drop (start + chunkOverlap)).take (chunkSize - chunkOverlap)
            ++ text.drop (start + chunkSize)
          = (text.drop (start + chunkOverlap)).take (chunkSize - chunkOverlap)
            ++ (text.drop (start + chunkOverlap)).drop (chunkSize - chunkOverlap) := by
            rw [List.drop_drop, h₂]
        _ = text.drop (start + chunkOverlap) := List.take_append_drop _ _
    · rw [chunksFromFuel_of_ge _ _ _ _ (by omega)]
      rw [List.drop_eq_nil_of_le (by omega)]
      rfl

/-- C3: for every text and every parameter pair with 0 ≤ chunk_overlap <
chunk_size, concatenating the first chunk with each subsequent chunk after
dropping its first chunk_overlap characters reconstructs the text exactly. -/
theorem reassemble_createChunks (chunkSize chunkOverlap : Nat)
    (hlt : chunkOverlap < chunkSize) (text : List Char) :
    reassemble chunkOverlap (createChunks chunkSize chunkOverlap text) = text := by
  cases htext : text with
  | nil => rfl
  | cons a t =>
    have hpos : 0 < text.length := by rw [htext]; simp
    have : createChunks chunkSize chunkOverlap text =
        text.take chunkSize
          :: chunksFromFuel chunkSize chunkOverlap text (0 + (chunkSize - chunkOverlap))
              (text.length - 1) := by
      unfold createChunks
      rw [chunksFromFuel_of_lt _ _ _ _ _ (by omega) (by omega), List.drop_zero]
    rw [← htext, this, reassemble]
    rw [flatten_drop_chunksFromFuel chunkSize chunkOverlap hlt text _ _ (by omega)]
    have : 0 + (chunkSize - chunkOverlap) + chunkOverlap = chunkSize := by omega
    rw [this, List.take_append_drop]

/-! ### The loop variable in the degenerate parameter regime -/

/-- Closed form of the loop variable: before iteration `k`,
`start = k * (chunk_size - chunk_overlap)` (over ℤ). -/
theorem chunkStart_eq (chunkSize chunkOverlap : Int) :
    ∀ k, chunkStart chunkSize chunkOverlap k = k * (chunkSize - chunkOverlap) := by
  intro k
  induction k with
  | zero => simp [chunkStart]
  | succ k ih =>
    rw [chunkStart, ih]
    push_cast
    ring

/-- C4 (amended): `_create_chunks` has no fail-fast guard and raises no
configuration error; in the degenerate regime chunk_overlap ≥ chunk_size its
loop never terminates on non-empty text (see the counterexample).  What does
hold is that for every parameter pair with chunk_overlap < chunk_size — in
particular the store's hardcoded 1000/200 — the loop terminates for every
input text. -/
theorem createChunksTerminates_of_valid (chunkSize chunkOverlap : Int)
    (hlt : chunkOverlap < chunkSize) (textLen : Nat) :
    CreateChunksTerminates chunkSize chunkOverlap textLen := by
  refine ⟨textLen, ?_⟩
  rw [chunkStart_eq]
  have h1 : (1 : Int) ≤ chunkSize - chunkOverlap := by omega
  have h0 : (0 : Int) ≤ (textLen : Int) := Int.natCast_nonneg _
  have := le_mul_of_one_le_right h0 h1
  omega

/-! ### Claims C1, C2, C4: counterexamples, amended statements, witnesses -/

/-- C3 witness: a concrete reconstruction instance at parameters 3/1. -/
theorem reassemble_createChunks_witness :
    (1 : Nat) < 3 ∧
      reassemble 1 (createChunks 3 1 ['a', 'b', 'c', 'd', 'e']) = ['a', 'b', 'c', 'd', 'e'] :=
  ⟨by norm_num, reassemble_createChunks 3 1 (by norm_num) _⟩

/-- C4 witness: the loop terminates at the store's parameters 1000/200 on a
2500-character text. -/
theorem createChunksTerminates_of_valid_witness :
    (200 : Int) < 1000 ∧ CreateChunksTerminates 1000 200 2500 :=
  ⟨by norm_num, createChunksTerminates_of_valid 1000 200 (by norm_num) 2500⟩

/-- C4 counterexample: with chunk_size = chunk_overlap = 1 and a 1-character
text the loop variable never reaches the text length, so `_create_chunks`
loops forever; no configuration error exists in the code. -/
theorem createChunks_degenerate_diverges : ¬ CreateChunksTerminates 1 1 1 := by
  rintro ⟨k, hk⟩
  apply hk
  rw [chunkStart_eq]
  simp

/-- C1 counterexample: a 2500-character text at the default parameters
1000/200 yields 4 chunks, not 3 as claimed. -/
theorem createChunks_2500_not_three :
    ¬ (createChunks 1000 200 (List.replicate 2500 'a')).length = 3 := by
  rw [createChunks_of_length_2500 _ (by simp)]
  simp

/-- C1 (amended): for an input text of exactly 2500 characters with the
default parameters chunk_size=1000 and chunk_overlap=200, `_create_chunks`
produces exactly 4 chunks, of lengths 1000, 1000, 900 and 100, taken at
start offsets 0, 800, 1600 and 2400 of the text. -/
theorem createChunks_2500_shape (text : List Char) (h : text.length = 2500) :
    createChunks 1000 200 text =
        [text.take 1000, (text.drop 800).take 1000,
          (text.drop 1600).take 1000, (text.drop 2400).take 1000] ∧
      (createChunks 1000 200 text).map List.length = [1000, 1000, 900, 100] := by
  refine ⟨createChunks_of_length_2500 text h, ?_⟩
  rw [createChunks_of_length_2500 text h]
  simp [h]

/-- C1 witness: the amended chunk shape at the concrete 2500-character text
made of repeated letters. -/
theorem createChunks_2500_shape_witness :
    (List.replicate 2500 'a').length = 2500 ∧
      (createChunks 1000 200 (List.replicate 2500 'a') =
          [(List.replicate 2500 'a').take 1000,
            ((List.replicate 2500 'a').drop 800).take 1000,
            ((List.replicate 2500 'a').drop 1600).take 1000,
            ((List.replicate 2500 'a').drop 2400).take 1000] ∧
        (createChunks 1000 200 (List.replicate 2500 'a')).map List.length =
          [1000, 1000, 900, 100]) :=
  ⟨by simp, createChunks_2500_shape _ (by simp)⟩

/-- C2 counterexample: the 900-character text (non-empty, strictly shorter
than chunk_size = 1000) is chunked into two chunks, not one. -/
theorem createChunks_900_not_single :
    createChunks 1000 200 (List.replicate 900 'a') ≠ [List.replicate 900 'a'] := by
  rw [createChunks_of_length_900 _ (by simp)]
  simp

/-- C2 (amended): at parameters 1000/200, chunking the empty string produces
zero chunks, and every non-empty string of length at most 800 (the step size
chunk_size - chunk_overlap, rather than every string shorter than
chunk_size) produces exactly one chunk equal to the whole input. -/
theorem createChunks_small_input (text : List Char) (hne : text ≠ [])
    (hlen : text.length ≤ 800) :
    createChunks 1000 200 ([] : List Char) = [] ∧ createChunks 1000 200 text = [text] :=
  ⟨rfl, createChunks_single 1000 200 (by norm_num) text hne (by omega)⟩

/-- C2 witness: the one-character text is its own single chunk. -/
theorem createChunks_small_input_witness :
    (['x'] : List Char) ≠ [] ∧ (['x'] : List Char).length ≤ 800 ∧
      (createChunks 1000 200 ([] : List Char) = [] ∧
        createChunks 1000 200 ['x'] = [['x']]) :=
  ⟨by decide, by decide, createChunks_small_input ['x'] (by decide) (by decide)⟩

/-! ### The document store -/

/-- One stored entry of `DocumentStore.documents` (the dict appended by
`add_document`): chunk content, its embedding, and the source filename. -/
structure StoredChunk where
  content : List Char
  embedding : List ℚ
  filename : List Char
deriving DecidableEq

/-- State of the in-memory `DocumentStore`: the insertion-ordered list of
stored chunks and the chunking parameters set by `__init__`. -/
structure DocumentStore where
  documents : List StoredChunk
  chunkSize : Nat
  chunkOverlap : Nat
deriving DecidableEq

/-- `DocumentStore.__init__` (lines 53-56): empty store, chunk_size = 1000,
chunk_overlap = 200. -/
def DocumentStore.init : DocumentStore := ⟨[], 1000, 200⟩

/-- The `for chunk in chunks` loop of `add_document` (lines 62-69): embed
each chunk in turn and append the stored entry; when `_generate_embedding`
raises (`embed chunk = none`) the loop aborts, the already-appended entries
remain, and the exception propagates (result flag `false`). -/
def addChunksLoop (embed : List Char → Option (List ℚ)) (filename : List Char) :
    DocumentStore → List (List Char) → DocumentStore × Bool
  | s, [] => (s, true)
  | s, chunk :: rest =>
    match embed chunk with
    | none => (s, false)
    | some e =>
      addChunksLoop embed filename
        { s with documents := s.documents ++ [⟨chunk, e, filename⟩] } rest

/-- Embedding of `DocumentStore.add_document` (lines 58-73): chunk the
content with the store's parameters, then embed and append chunk by chunk.
The `Bool` is `true` iff no exception was raised. -/
def DocumentStore.addDocument (s : DocumentStore) (embed : List Char → Option (List ℚ))
    (content : List Char) (filename : List Char) : DocumentStore × Bool :=
  addChunksLoop embed filename s (createChunks s.chunkSize s.chunkOverlap content)

/-! ### Cosine similarity and the retrieval ranking -/

/-- Dot product of two embedding vectors (missing coordinates contribute
nothing, matching numpy's behaviour on equal-length vectors; the source
never validates dimensions). -/
def dot (a b : List ℚ) : ℚ := (List.zipWith (fun x y => x * y) a b).sum

/-- Cosine similarity as computed by `sklearn.metrics.pairwise.
cosine_similarity` on two single-vector inputs: `a·b / (‖a‖ ‖b‖)`.  (For a
zero vector both sklearn — which substitutes norm 1 — and Lean's
division-by-zero convention yield similarity 0.) -/
noncomputable def cosineSim (a b : List ℚ) : ℝ :=
  ((dot a b : ℚ) : ℝ) / (Real.sqrt ((dot a a : ℚ) : ℝ) * Real.sqrt ((dot b b : ℚ) : ℝ))

/-- Lexicographic comparison of Python strings by character code, as used by
tuple comparison in `similarities.sort`. -/
def strLe : List Char → List Char → Bool
  | [], _ => true
  | _ :: _, [] => false
  | a :: s, b :: t => if a < b then true else if b < a then false else strLe s t

/-- Python's ascending order on the `(similarity, content)` tuples built by
`get_relevant_chunks`: compare similarities first, contents on ties. -/
def pairLe (x y : ℝ × List Char) : Prop :=
  x.1 < y.1 ∨ (x.1 = y.1 ∧ strLe x.2 y.2 = true)

noncomputable instance (x y : ℝ × List Char) : Decidable (pairLe x y) :=
  Classical.propDecidable _

/-- Insert into a descending-sorted list of `(similarity, content)` pairs,
placing the new pair after every pair that is at least as large: together
with `sortDesc` this models `similarities.sort(reverse=True)`. -/
noncomputable def insertDesc (x : ℝ × List Char) :
    List (ℝ × List Char) → List (ℝ × List Char)
  | [] => [x]
  | y :: rest => if pairLe x y then y :: insertDesc x rest else x :: y :: rest

/-- Descending sort of the `(similarity, content)` pairs, modelling
`similarities.sort(reverse=True)` in `get_relevant_chunks`. -/
noncomputable def sortDesc : List (ℝ × List Char) → List (ℝ × List Char)
  | [] => []
  | x :: rest => insertDesc x (sortDesc rest)

/-- Embedding of `DocumentStore.get_relevant_chunks` (lines 98-121),
state-passing: on an empty store return `[]` at once; if embedding the query
raises (`embed query = none`) the exception is swallowed and `[]` is
returned; otherwise score every stored chunk with cosine similarity, sort
the `(similarity, content)` pairs descending, and return the contents of the
first `topK` pairs.  The method never mutates the store, so the post-state
is the pre-state.  (The Python default for `topK` is 3.) -/
noncomputable def DocumentStore.getRelevantChunks (s : DocumentStore)
    (embed : List Char → Option (List ℚ)) (query : List Char) (topK : Nat) :
    List (List Char) × DocumentStore :=
  if s.documents.isEmpty then ([], s)
  else
    match embed query with
    | none => ([], s)
    | some qe =>
      (((sortDesc (s.documents.map (fun d => (cosineSim qe d.embedding, d.content)))).take
          topK).map Prod.snd, s)

/-! ### The upload endpoint and the health check -/

/-- Allowed upload extensions (line 177): only `.txt` without textract,
also `.doc`/`.docx` with it. -/
def allowedExtensions (textractAvailable : Bool) : List (List Char) :=
  if textractAvailable then [".txt".data, ".doc".data, ".docx".data] else [".txt".data]

/-- The check `file.filename.lower().endswith(allowed_extensions)`
(line 183). -/
def hasAllowedExtension (textractAvailable : Bool) (filename : List Char) : Bool :=
  (allowedExtensions textractAvailable).any
    (fun ext => List.isSuffixOf ext (filename.map Char.toLower))

/-- One uploaded file as the handler sees it: its filename and the outcome
of text extraction (`none` models `extract_text_from_file` raising). -/
structure UploadFileReq where
  filename : List Char
  extracted : Option (List Char)

/-- Response of the upload endpoint: a success body (with file count and the
textract flag) or an `HTTPException` status. -/
inductive UploadOutcome where
  | success (count : Nat) (textractAvailable : Bool)
  | failure (status : Nat)
deriving DecidableEq

/-- The `for file in files` body of `upload_files` (lines 180-205), run
inside the handler's `try:`.  A disallowed extension raises
`HTTPException(400)` directly; an extraction or ingestion failure is caught
by the inner `except` and re-raised as `HTTPException(400)`.  The returned
`Option Nat` is the status of the exception escaping the loop (`none` =
no exception); the store reflects all appends made before the failure. -/
def processFiles (textractAvailable : Bool) (embed : List Char → Option (List ℚ)) :
    DocumentStore → List UploadFileReq → DocumentStore × Option Nat
  | s, [] => (s, none)
  | s, f :: rest =>
    if hasAllowedExtension textractAvailable f.filename then
      match f.extracted with
      | none => (s, some 400)
      | some text =>
        match s.addDocument embed text f.filename with
        | (s2, true) => processFiles textractAvailable embed s2 rest
        | (s2, false) => (s2, some 400)
    else (s, some 400)

/-- Embedding of the `upload_files` handler (lines 165-215).  Empty file
list and more than 5 files raise `HTTPException(400)` before the `try:`
block; every exception raised inside the `try:` block — including the
`HTTPException(400)` of the extension check — is caught by
`except Exception` and re-raised as `HTTPException(500)`, because FastAPI's
`HTTPException` is a subclass of `Exception`. -/
def uploadFiles (textractAvailable : Bool) (embed : List Char → Option (List ℚ))
    (s : DocumentStore) (files : List UploadFileReq) : UploadOutcome × DocumentStore :=
  if files.isEmpty then (.failure 400, s)
  else if files.length > 5 then (.failure 400, s)
  else
    match processFiles textractAvailable embed s files with
    | (s2, none) => (.success files.length textractAvailable, s2)
    | (s2, some _) => (.failure 500, s2)

/-- Response of `GET /health`. -/
structure HealthResponse where
  status : List Char
  documentCount : Nat
  textractAvailable : Bool

/-- Embedding of the `health_check` handler (lines 263-270). -/
def healthCheck (textractAvailable : Bool) (s : DocumentStore) : HealthResponse :=
  ⟨"healthy".data, s.documents.length, textractAvailable⟩

/-! ### Facts about the descending sort -/

/-- A pair below another in Python's tuple order has the smaller or equal
similarity. -/
theorem pairLe_fst {x y : ℝ × List Char} (h : pairLe x y) : x.1 ≤ y.1 := by
  rcases h with h | ⟨h, _⟩
  · exact le_of_lt h
  · exact le_of_eq h

/-- A pair not below another in Python's tuple order has the larger or equal
similarity. -/
theorem not_pairLe_fst {x y : ℝ × List Char} (h : ¬ pairLe x y) : y.1 ≤ x.1 :=
  le_of_not_lt (fun hlt => h (Or.inl hlt))

/-- The head of an insertion is the inserted pair or the old head. -/
theorem insertDesc_head (x : ℝ × List Char) (l : List (ℝ × List Char)) :
    (insertDesc x l).head? = some x ∨ (insertDesc x l).head? = l.head? := by
  cases l with
  | nil => exact Or.inl rfl
  | cons y rest =>
    rw [insertDesc]
    by_cases hxy : pairLe x y
    · rw [if_pos hxy]; exact Or.inr rfl
    · rw [if_neg hxy]; exact Or.inl rfl

/-- Inserting into a list whose similarities are non-increasing keeps the
similarities non-increasing. -/
theorem chain_insertDesc (x : ℝ × List Char) :
    ∀ l, List.Chain' (fun a b : ℝ × List Char => b.1 ≤ a.1) l →
      List.Chain' (fun a b : ℝ × List Char => b.1 ≤ a.1) (insertDesc x l) := by
  intro l
  induction l with
  | nil => intro _; simp [insertDesc]
  | cons y rest ih =>
    intro h
    obtain ⟨hhd, htl⟩ := List.chain'_cons'.mp h
    rw [insertDesc]
    by_cases hxy : pairLe x y
    · rw [if_pos hxy]
      refine List.chain'_cons'.mpr ⟨?_, ih htl⟩
      intro b hb
      rcases insertDesc_head x rest with hh | hh
      · rw [hh] at hb
        obtain rfl : x = b := by simpa using hb
        exact pairLe_fst hxy
      · rw [hh] at hb
        exact hhd b hb
    · rw [if_neg hxy]
      refine List.chain'_cons'.mpr ⟨?_, h⟩
      intro b hb
      obtain rfl : y = b := by simpa using hb
      exact not_pairLe_fst hxy

/-- Insertion permutes consing. -/
theorem insertDesc_perm (x : ℝ × List Char) :
    ∀ l, List.Perm (insertDesc x l) (x :: l) := by
  intro l
  induction l with
  | nil => exact List.Perm.refl _
  | cons y rest ih =>
    rw [insertDesc]
    by_cases hxy : pairLe x y
    · rw [if_pos hxy]
      exact (ih.cons y).trans (List.Perm.swap x y rest)
    · rw [if_neg hxy]

/-- The descending sort permutes its input. -/
theorem sortDesc_perm : ∀ l, List.Perm (sortDesc l) l := by
  intro l
  induction l with
  | nil => exact List.Perm.refl _
  | cons x rest ih =>
    rw [sortDesc]
    exact (insertDesc_perm x (sortDesc rest)).trans (ih.cons x)

/-- The similarities of a descending-sorted list are non-increasing. -/
theorem sortDesc_chain :
    ∀ l, List.Chain' (fun a b : ℝ × List Char => b.1 ≤ a.1) (sortDesc l) := by
  intro l
  induction l with
  | nil => simp [sortDesc]
  | cons x rest ih =>
    rw [sortDesc]
    exact chain_insertDesc x _ ih

/-! ### Claims C5 and C6 -/

/-- C5: for every store state, every query whose embedding succeeds and
every topK, get_relevant_chunks returns at most topK chunk contents, and the
returned contents are exactly the second components of a list of
(similarity, content) pairs whose similarities are non-increasing, each pair
being the cosine similarity between the query embedding and a stored chunk's
embedding together with that chunk's content. -/
theorem getRelevantChunks_topk_sorted (s : DocumentStore)
    (embed : List Char → Option (List ℚ)) (query : List Char) (qe : List ℚ)
    (topK : Nat) (hq : embed query = some qe) :
    ∃ pairs : List (ℝ × List Char),
      (s.getRelevantChunks embed query topK).1 = pairs.map Prod.snd ∧
        pairs.length ≤ topK ∧
        List.Chain' (fun a b : ℝ × List Char => b.1 ≤ a.1) pairs ∧
        ∀ p ∈ pairs, ∃ d ∈ s.documents,
          p.2 = d.content ∧ p.1 = cosineSim qe d.embedding := by
  unfold DocumentStore.getRelevantChunks
  by_cases hs : s.documents.isEmpty
  · rw [if_pos hs]
    exact ⟨[], rfl, by simp, by simp, by simp⟩
  · rw [if_neg hs, hq]
    refine ⟨(sortDesc (s.documents.map
        (fun d => (cosineSim qe d.embedding, d.content)))).take topK, rfl, ?_, ?_, ?_⟩
    · exact List.length_take_le _ _
    · exact (sortDesc_chain _).take _
    · intro p hp
      have hp2 := List.mem_of_mem_take hp
      have hp3 := (sortDesc_perm _).mem_iff.mp hp2
      obtain ⟨d, hd, hpd⟩ := List.mem_map.mp hp3
      exact ⟨d, hd, by rw [← hpd], by rw [← hpd]⟩

/-- C5 witness: a concrete one-document store and a query embedding. -/
theorem getRelevantChunks_topk_sorted_witness :
    (fun _ : List Char => some [(1 : ℚ)]) ['q'] = some [(1 : ℚ)] ∧
      ∃ pairs : List (ℝ × List Char),
        ((DocumentStore.mk [⟨['d'], [(1 : ℚ)], ['f']⟩] 1000 200).getRelevantChunks
            (fun _ => some [(1 : ℚ)]) ['q'] 3).1 = pairs.map Prod.snd ∧
          pairs.length ≤ 3 ∧
          List.Chain' (fun a b : ℝ × List Char => b.1 ≤ a.1) pairs ∧
          ∀ p ∈ pairs, ∃ d ∈ (DocumentStore.mk [⟨['d'], [(1 : ℚ)], ['f']⟩] 1000 200).documents,
            p.2 = d.content ∧ p.1 = cosineSim [(1 : ℚ)] d.embedding :=
  ⟨rfl, getRelevantChunks_topk_sorted _ _ _ _ _ rfl⟩

/-- C6: get_relevant_chunks returns the empty list, propagating no error, in
the two failure situations: the store holds no documents (any query, any
topK), or embedding the query fails (any store state) — the embedding
failure is swallowed. -/
theorem getRelevantChunks_failure_empty (s : DocumentStore)
    (embed : List Char → Option (List ℚ)) (query : List Char) (topK : Nat)
    (h : s.documents = [] ∨ embed query = none) :
    (s.getRelevantChunks embed query topK).1 = [] := by
  unfold DocumentStore.getRelevantChunks
  rcases h with h | h
  · rw [if_pos (by simp [h])]
  · by_cases hs : s.documents.isEmpty
    · rw [if_pos hs]
    · rw [if_neg hs, h]

/-- C6 witness: empty store, arbitrary query. -/
theorem getRelevantChunks_failure_empty_witness :
    (DocumentStore.init.documents = [] ∨
        (fun _ : List Char => (none : Option (List ℚ))) ['q'] = none) ∧
      (DocumentStore.init.getRelevantChunks (fun _ => none) ['q'] 3).1 = [] :=
  ⟨Or.inl rfl, getRelevantChunks_failure_empty _ _ _ _ (Or.inl rfl)⟩

/-! ### Facts about the ingestion loop -/

/-- If the embedding provider succeeds on the first `i` chunks and fails on
chunk `i`, the ingestion loop stops with an error after appending exactly
the `i` embedded entries. -/
theorem addChunksLoop_aborts (embed : List Char → Option (List ℚ)) (filename : List Char) :
    ∀ (chunks : List (List Char)) (s : DocumentStore) (i : Nat) (hi : i < chunks.length),
      (∀ c ∈ chunks.take i, (embed c).isSome = true) →
      embed (chunks.get ⟨i, hi⟩) = none →
      addChunksLoop embed filename s chunks =
        ({ s with documents := (s.documents ++ (chunks.take i).map
            (fun c => ⟨c, (embed c).getD [], filename⟩)) }, false) := by
  intro chunks
  induction chunks with
  | nil => intro s i hi; exact absurd hi (by simp)
  | cons c rest ih =>
    intro s i hi hsucc hfail
    cases i with
    | zero =>
      have hc : embed c = none := hfail
      simp [addChunksLoop, hc]
    | succ i =>
      have hc : (embed c).isSome = true := hsucc c (by simp)
      obtain ⟨e, he⟩ := Option.isSome_iff_exists.mp hc
      have hrest := ih { s with documents := s.documents ++ [⟨c, e, filename⟩] } i
        (by simpa using hi) (fun d hd => hsucc d (by simp [hd])) (by simpa using hfail)
      simp only [addChunksLoop, he, hrest]
      simp [he, List.append_assoc]

/-- The ingestion loop only appends: the old document list is a prefix of
the new one, whether or not an embedding fails. -/
theorem addChunksLoop_mono (embed : List Char → Option (List ℚ)) (filename : List Char) :
    ∀ (chunks : List (List Char)) (s : DocumentStore),
      s.documents <+: (addChunksLoop embed filename s chunks).1.documents := by
  intro chunks
  induction chunks with
  | nil => intro s; exact List.prefix_refl _
  | cons c rest ih =>
    intro s
    simp only [addChunksLoop]
    cases he : embed c with
    | none => exact List.prefix_refl _
    | some e =>
      refine List.IsPrefix.trans ?_ (ih { s with documents := s.documents ++ [⟨c, e, filename⟩] })
      exact List.prefix_append _ _

/-- When every chunk embeds successfully, the loop succeeds and appends one
entry per chunk. -/
theorem addChunksLoop_success (embed : List Char → Option (List ℚ)) (filename : List Char) :
    ∀ (chunks : List (List Char)) (s : DocumentStore),
      (∀ c ∈ chunks, (embed c).isSome = true) →
      (addChunksLoop embed filename s chunks).1.documents.length =
        s.documents.length + chunks.length := by
  intro chunks
  induction chunks with
  | nil => intro s _; simp [addChunksLoop]
  | cons c rest ih =>
    intro s hall
    obtain ⟨e, he⟩ := Option.isSome_iff_exists.mp (hall c (by simp))
    simp only [addChunksLoop, he]
    rw [ih _ (fun d hd => hall d (by simp [hd]))]
    simp
    omega

/-! ### Claims C7, C9, C10 -/

/-- C7: add_document is not atomic — if the content splits into chunks and
the embedding provider fails on chunk i after i successful embeddings, then
add_document propagates the error (flag false) and exactly the i
already-embedded StoredChunk entries remain appended to the store. -/
theorem addDocument_partial_failure (s : DocumentStore)
    (embed : List Char → Option (List ℚ)) (content filename : List Char) (i : Nat)
    (hi : i < (createChunks s.chunkSize s.chunkOverlap content).length)
    (hsucc : ∀ c ∈ (createChunks s.chunkSize s.chunkOverlap content).take i,
      (embed c).isSome = true)
    (hfail : embed ((createChunks s.chunkSize s.chunkOverlap content).get ⟨i, hi⟩) = none) :
    (s.addDocument embed content filename).2 = false ∧
      (s.addDocument embed content filename).1.documents =
        s.documents ++ ((createChunks s.chunkSize s.chunkOverlap content).take i).map
          (fun c => ⟨c, (embed c).getD [], filename⟩) := by
  unfold DocumentStore.addDocument
  rw [addChunksLoop_aborts embed filename _ s i hi hsucc hfail]
  exact ⟨rfl, rfl⟩

/-- C7 witness: the claim's scenario at a 3-chunk document — parameters 3/1,
content of 5 characters giving chunks abc, cde, e; the provider embeds the
first two chunks and fails on the third, leaving exactly 2 entries. -/
theorem addDocument_partial_failure_witness :
    2 < (createChunks 3 1 ['a', 'b', 'c', 'd', 'e']).length ∧
      (∀ c ∈ (createChunks 3 1 ['a', 'b', 'c', 'd', 'e']).take 2,
        ((fun c : List Char => if c.length = 1 then none else some [(1 : ℚ)]) c).isSome = true) ∧
      (fun c : List Char => if c.length = 1 then none else some [(1 : ℚ)])
          ((createChunks 3 1 ['a', 'b', 'c', 'd', 'e']).get ⟨2, by decide⟩) = none ∧
      ((DocumentStore.mk [] 3 1).addDocument
          (fun c : List Char => if c.length = 1 then none else some [(1 : ℚ)])
          ['a', 'b', 'c', 'd', 'e'] ['f']).2 = false ∧
      ((DocumentStore.mk [] 3 1).addDocument
          (fun c : List Char => if c.length = 1 then none else some [(1 : ℚ)])
          ['a', 'b', 'c', 'd', 'e'] ['f']).1.documents =
        [] ++ ((createChunks 3 1 ['a', 'b', 'c', 'd', 'e']).take 2).map
          (fun c => ⟨c, (((fun c : List Char => if c.length = 1 then none else some [(1 : ℚ)]) c).getD []),
            ['f']⟩) := by
  refine ⟨by decide, by decide, by decide, ?_⟩
  exact addDocument_partial_failure (DocumentStore.mk [] 3 1) _ _ _ 2 (by decide)
    (by decide) (by decide)

/-- C9: the store grows monotonically — add_document only appends (the old
document list is a prefix of the new one, also on failure), and
get_relevant_chunks leaves the store unchanged. -/
theorem store_monotone_growth (s : DocumentStore) (embed : List Char → Option (List ℚ))
    (content filename query : List Char) (topK : Nat) :
    s.documents <+: (s.addDocument embed content filename).1.documents ∧
      (s.getRelevantChunks embed query topK).2 = s := by
  constructor
  · exact addChunksLoop_mono embed filename _ s
  · unfold DocumentStore.getRelevantChunks
    by_cases hs : s.documents.isEmpty
    · rw [if_pos hs]
    · rw [if_neg hs]
      cases embed query <;> rfl

/-- C10: the health check reports one count per stored chunk: its
document_count equals the length of the store's document list, and a
successful add_document of a content splitting into n chunks increases it by
n (the number of chunks, not the number of files). -/
theorem healthCheck_document_count (textractAvailable : Bool) (s : DocumentStore)
    (embed : List Char → Option (List ℚ)) (content filename : List Char)
    (hall : ∀ c ∈ createChunks s.chunkSize s.chunkOverlap content,
      (embed c).isSome = true) :
    (healthCheck textractAvailable s).documentCount = s.documents.length ∧
      (healthCheck textractAvailable (s.addDocument embed content filename).1).documentCount =
        s.documents.length + (createChunks s.chunkSize s.chunkOverlap content).length := by
  constructor
  · rfl
  · exact addChunksLoop_success embed filename _ s hall

/-- C10 witness: adding a short document (one chunk) to the fresh store
raises the health count from 0 to 1. -/
theorem healthCheck_document_count_witness :
    (∀ c ∈ createChunks DocumentStore.init.chunkSize DocumentStore.init.chunkOverlap
        ['h', 'i'], ((fun _ : List Char => some [(1 : ℚ)]) c).isSome = true) ∧
      (healthCheck true DocumentStore.init).documentCount =
          DocumentStore.init.documents.length ∧
        (healthCheck true (DocumentStore.init.addDocument (fun _ => some [(1 : ℚ)])
            ['h', 'i'] ['f']).1).documentCount =
          DocumentStore.init.documents.length +
            (createChunks DocumentStore.init.chunkSize DocumentStore.init.chunkOverlap
              ['h', 'i']).length :=
  ⟨fun _ _ => rfl, healthCheck_document_count true DocumentStore.init _ _ _ (fun _ _ => rfl)⟩

/-! ### Claim C8 -/

/-- C8: upload endpoint statuses.  An empty file list and more than 5 files
do return 400 (checked before the `try:` block), but a file whose name has a
disallowed extension returns 500, not the claimed 400: the
`HTTPException(400)` raised at the extension check is swallowed by the
handler's blanket `except Exception` and re-raised as `HTTPException(500)`.
Evaluated here: one `.pdf` file (textract unavailable) gives 500; the empty
list gives 400; six valid `.txt` files give 400. -/
theorem uploadFiles_bad_extension_500 :
    (uploadFiles false (fun _ => none) DocumentStore.init
        [⟨"a.pdf".data, some "hello".data⟩]).1 = UploadOutcome.failure 500 ∧
      (uploadFiles false (fun _ => none) DocumentStore.init []).1 =
        UploadOutcome.failure 400 ∧
      (uploadFiles false (fun _ => none) DocumentStore.init
          (List.replicate 6 ⟨"a.txt".data, some "hi".data⟩)).1 =
        UploadOutcome.failure 400 := by
  refine ⟨by decide, rfl, by decide⟩
